import Mathlib

/-!
# Task Manager (src/main.js): a shallow embedding and its verified properties

The embedding covers the core of `src/main.js`: the `Task` class, the `Storage`
object (`save` / `get` over `localStorage`), the in-memory task array with its
query functions, form validation and the event handlers that mutate the array.

Modelling conventions.

* JavaScript strings are Lean `String`s (sequences of Unicode scalar values).
* Integer-valued JavaScript numbers are `Int`; array lengths are `Nat`.
* The module-level variables `tasks`, `isEditing`, `taskBeingEdited`, the
  browser's `localStorage` and the rendered task list are the fields of `State`;
  every handler is a function from `State` to `State`.
* `Date.now()` and `new Date().toISOString()` are inputs of the operations that
  read them (`Clock`); `confirm(...)` is a boolean input; the text passed to
  `alert(...)` is an output.
* Of the DOM the state keeps the children of the task list (`Elem`: the
  `data-id` and the `completed` class of each), which is all the handlers read
  back; a listener is given the position of the element acted on. The values
  read from the form inputs are the `FormData` argument of `handleFormSubmit`.
  Visibility (`filterTasks`) and the modal's CSS class are not modelled.
* A handler that raises stops there; the state it returns is the state reached
  before the exception.
* `localStorage.setItem` is taken to succeed (no quota failure).
-/

namespace TaskManager

/-! ## JavaScript string helpers -/

/-- The code points removed by `String.prototype.trim`: ECMAScript WhiteSpace
(TAB, VT, FF, SP, NBSP, ZWNBSP and the Unicode space separators) together with
the LineTerminator code points (LF, CR, LS, PS). -/
def isTrimChar (c : Char) : Bool :=
  let n := c.toNat
  n == 0x09 || n == 0x0A || n == 0x0B || n == 0x0C || n == 0x0D || n == 0x20 ||
  n == 0xA0 || n == 0x1680 || (0x2000 ≤ n && n ≤ 0x200A) || n == 0x2028 ||
  n == 0x2029 || n == 0x202F || n == 0x205F || n == 0x3000 || n == 0xFEFF

/-- Characters of `s.trim()`: leading and trailing trim characters removed. -/
def trimChars (cs : List Char) : List Char :=
  ((cs.dropWhile isTrimChar).reverse.dropWhile isTrimChar).reverse

/-- `String.prototype.trim`. -/
def jsTrim (s : String) : String := ⟨trimChars s.data⟩

/-- JavaScript truthiness of a string value: every string but the empty one. -/
def truthyStr (s : String) : Bool := !(s.data.isEmpty)

/-- `Array.prototype.join` on an array of strings. -/
def jsJoin (sep : String) : List String → String
  | [] => ""
  | [x] => x
  | x :: y :: rest => x ++ sep ++ jsJoin sep (y :: rest)

/-! ## The Task class -/

/-- An instance of `class Task`. The seven fields after `ref` are the own
properties set by the constructor. `ref` is the identity of the JavaScript
object (its heap address): it is what a variable such as `taskBeingEdited`
holds, it is not a property and is never serialised. -/
structure Task where
  ref : Nat
  id : Int
  title : String
  description : String
  date : String
  time : String
  completed : Bool
  createdAt : String
deriving DecidableEq, Repr

/-- One reading of the system clock by the `Task` constructor: `Date.now()` and
`new Date().toISOString()`. -/
structure Clock where
  now : Int
  iso : String
deriving DecidableEq, Repr

/-- The constructor `new Task(title, description, date, time)`, allocated at
address `ref`. -/
def Task.new (ref : Nat) (clock : Clock) (title description date time : String) : Task :=
  { ref := ref
    id := clock.now
    title := title
    description := description
    date := date
    time := time
    completed := false
    createdAt := clock.iso }

/-- The method `toggleComplete()`. -/
def Task.toggleComplete (t : Task) : Task := { t with completed := !t.completed }

/-! ## Form validation -/

/-- The object literal built from the four form inputs in `handleFormSubmit`;
the `value` of an input element is always a string. -/
structure FormData where
  title : String
  description : String
  date : String
  time : String
deriving DecidableEq, Repr

/-- The function `validateFormData(data)`: `errors` starts empty and each failed
check pushes its message. -/
def validateFormData (data : FormData) : List String := Id.run do
  let mut errors : List String := []
  if !truthyStr (jsTrim data.title) then errors := errors ++ ["Title is required"]
  if !truthyStr (jsTrim data.description) then errors := errors ++ ["Description is required"]
  if !truthyStr data.date then errors := errors ++ ["Date is required"]
  if !truthyStr data.time then errors := errors ++ ["Time is required"]
  return errors

/-- The text `showErrors(errors)` passes to `alert`. -/
def showErrors (errors : List String) : String := jsJoin "\n" errors

/-! ## JSON: the values, `JSON.stringify` on task arrays, `JSON.parse`

`JSON.stringify` and `JSON.parse` are built-ins of the JavaScript engine; they are
modelled after ECMA-262 (sections "JSON.stringify", "QuoteJSONString" and the JSON
grammar of ECMA-404 used by "JSON.parse"). -/

/-- The errors a handler can raise. `outOfFuel` is an artefact of the fuel-driven
parser below; `JSON.parse` never returns it (`JSON.parse_error`). -/
inductive JsError where
  | syntaxError
  | typeError
  | outOfFuel
deriving DecidableEq, Repr

/-- The JavaScript values `JSON.parse` can produce, and `undefined` (the result of
reading a missing property). Numbers carry their exact decimal value. -/
inductive JsVal where
  | undefined
  | null
  | bool (b : Bool)
  | num (q : ℚ)
  | str (s : String)
  | arr (xs : List JsVal)
  | obj (kvs : List (String × JsVal))

/-- Lower-case hexadecimal digit of `d < 16`. -/
def hexDigit (d : Nat) : Char :=
  if d < 10 then Char.ofNat (48 + d) else Char.ofNat (87 + d)

/-- Value of a hexadecimal digit, either case. -/
def hexVal (c : Char) : Option Nat :=
  let n := c.toNat
  if 48 ≤ n ∧ n ≤ 57 then some (n - 48)
  else if 97 ≤ n ∧ n ≤ 102 then some (n - 87)
  else if 65 ≤ n ∧ n ≤ 70 then some (n - 55)
  else none

/-- Value of four hexadecimal digits. -/
def hex4 (a b c d : Char) : Option Nat :=
  match hexVal a, hexVal b, hexVal c, hexVal d with
  | some x, some y, some z, some w => some (((x * 16 + y) * 16 + z) * 16 + w)
  | _, _, _, _ => none

/-- QuoteJSONString on one code point: the two-character escapes of the table,
a six-character unicode escape for the other control characters, the character
itself otherwise. -/
def quoteChar (c : Char) : List Char :=
  if c = '"' then ['\\', '"']
  else if c = '\\' then ['\\', '\\']
  else if c = '\x08' then ['\\', 'b']
  else if c = '\x0c' then ['\\', 'f']
  else if c = '\n' then ['\\', 'n']
  else if c = '\r' then ['\\', 'r']
  else if c = '\t' then ['\\', 't']
  else if c.toNat < 0x20 then
    ['\\', 'u', '0', '0', hexDigit (c.toNat / 16), hexDigit (c.toNat % 16)]
  else [c]

/-- QuoteJSONString: the JSON string literal of `s`. -/
def quoteJSONString (s : String) : List Char :=
  '"' :: (s.data.flatMap quoteChar ++ ['"'])

/-- Decimal digits of a natural number, most significant first. -/
def natDigits (n : Nat) : List Char :=
  ((Nat.digits 10 n).reverse.map fun d => Char.ofNat (48 + d))

/-- Number::toString on an integer: its decimal digits, with a minus sign when
negative (`0` for zero). This is the text the engine produces below 10^21 in
magnitude; from there on the engine writes the same number with an exponent. -/
def intToChars (i : Int) : List Char :=
  if i = 0 then ['0']
  else if i < 0 then '-' :: natDigits i.natAbs
  else natDigits i.natAbs

/-- SerializeJSONProperty for one member of an object: the quoted key, a colon
and the serialised value. -/
def stringifyMember (key : String) (value : List Char) : List Char :=
  quoteJSONString key ++ ':' :: value

/-- SerializeJSONObject on a `Task` instance: its own enumerable properties in
creation order, separated by commas, between braces. -/
def stringifyTask (t : Task) : List Char :=
  '{' :: (stringifyMember "id" (intToChars t.id) ++
  ',' :: (stringifyMember "title" (quoteJSONString t.title) ++
  ',' :: (stringifyMember "description" (quoteJSONString t.description) ++
  ',' :: (stringifyMember "date" (quoteJSONString t.date) ++
  ',' :: (stringifyMember "time" (quoteJSONString t.time) ++
  ',' :: (stringifyMember "completed" (if t.completed then "true".data else "false".data) ++
  ',' :: (stringifyMember "createdAt" (quoteJSONString t.createdAt) ++ ['}'])))))))

/-- The elements of a serialised array after the first, each preceded by a comma. -/
def stringifyTail : List Task → List Char
  | [] => []
  | t :: ts => ',' :: (stringifyTask t ++ stringifyTail ts)

/-- `JSON.stringify(tasks)` for an array of `Task` instances (SerializeJSONArray,
no indentation). -/
def JSON.stringify (tasks : List Task) : String :=
  match tasks with
  | [] => "[]"
  | t :: ts => ⟨'[' :: (stringifyTask t ++ stringifyTail ts ++ [']'])⟩

/-- JSONWhiteSpace: TAB, LF, CR, SP. -/
def isJsonWs (c : Char) : Bool :=
  c = '\t' || c = '\n' || c = '\r' || c = ' '

/-- Skip JSON white space. -/
def skipWs (cs : List Char) : List Char := cs.dropWhile isJsonWs

/-- The character of a code unit that is not part of a surrogate pair. A lone
surrogate has no counterpart among Unicode scalar values and is read as U+FFFD. -/
def unitToChar (n : Nat) : Char :=
  if 0xD800 ≤ n ∧ n ≤ 0xDFFF then Char.ofNat 0xFFFD else Char.ofNat n

/-- The characters of a sequence of code units: a high surrogate followed by a
low surrogate is one supplementary character. An entry is either the code point
of a character written literally or the 16-bit value of a unicode escape. -/
def decodeUnits : List Nat → List Char
  | [] => []
  | [a] => [unitToChar a]
  | a :: b :: rest =>
    if (0xD800 ≤ a ∧ a ≤ 0xDBFF) ∧ (0xDC00 ≤ b ∧ b ≤ 0xDFFF) then
      Char.ofNat (0x10000 + (a - 0xD800) * 0x400 + (b - 0xDC00)) :: decodeUnits rest
    else unitToChar a :: decodeUnits (b :: rest)

/-- The rest of a JSON string literal after its opening quote: returns the
string and the input after the closing quote. `acc` holds the code units read
so far, last first. -/
def parseStringBody : List Char → List Nat → Except JsError (String × List Char)
  | [], _ => .error .syntaxError
  | c :: rest, acc =>
    if c = '"' then .ok (⟨decodeUnits acc.reverse⟩, rest)
    else if c = '\\' then
      match rest with
      | [] => .error .syntaxError
      | e :: r =>
        if e = '"' then parseStringBody r (0x22 :: acc)
        else if e = '\\' then parseStringBody r (0x5C :: acc)
        else if e = '/' then parseStringBody r (0x2F :: acc)
        else if e = 'b' then parseStringBody r (0x08 :: acc)
        else if e = 'f' then parseStringBody r (0x0C :: acc)
        else if e = 'n' then parseStringBody r (0x0A :: acc)
        else if e = 'r' then parseStringBody r (0x0D :: acc)
        else if e = 't' then parseStringBody r (0x09 :: acc)
        else if e = 'u' then
          match r with
          | a :: b :: c :: d :: r1 =>
            match hex4 a b c d with
            | none => .error .syntaxError
            | some n => parseStringBody r1 (n :: acc)
          | _ => .error .syntaxError
        else .error .syntaxError
    else if c.toNat < 0x20 then .error .syntaxError
    else parseStringBody rest (c.toNat :: acc)

/-- Value of a run of decimal digits, most significant first. -/
def digitsVal (ds : List Char) : Nat :=
  ds.foldl (fun acc c => acc * 10 + (c.toNat - 48)) 0

/-- The optional sign of an exponent: whether it is a minus, and the input after
the sign. -/
def exponentSign (r : List Char) : Bool × List Char :=
  match r with
  | s :: r0 => if s = '-' then (true, r0) else if s = '+' then (false, r0) else (false, r)
  | [] => (false, r)

/-- The exponent part of a JSON number (`e` or `E`, optional sign, digits),
absent when the input does not start with one. -/
def parseExponent (cs : List Char) : Except JsError (Int × List Char) :=
  match cs with
  | e :: r =>
    if e = 'e' ∨ e = 'E' then
      let ds := (exponentSign r).2.takeWhile Char.isDigit
      if ds.isEmpty then .error .syntaxError
      else .ok (if (exponentSign r).1 then - (digitsVal ds : Int) else (digitsVal ds : Int),
        (exponentSign r).2.dropWhile Char.isDigit)
    else .ok (0, cs)
  | [] => .ok (0, cs)

/-- The fraction part of a JSON number (a dot followed by digits), absent when
the input does not start with a dot. Returns the fraction as a rational. -/
def parseFraction (cs : List Char) : Except JsError (ℚ × List Char) :=
  match cs with
  | d :: r =>
    if d = '.' then
      let ds := r.takeWhile Char.isDigit
      if ds.isEmpty then .error .syntaxError
      else .ok ((digitsVal ds : ℚ) / (10 : ℚ) ^ ds.length, r.dropWhile Char.isDigit)
    else .ok (0, cs)
  | [] => .ok (0, cs)

/-- A JSON number whose sign has been read: integer part (a single `0`, or a
digit run not starting with `0`), optional fraction, optional exponent. -/
def parseUnsigned (cs : List Char) : Except JsError (ℚ × List Char) :=
  match cs with
  | [] => .error .syntaxError
  | c :: r =>
    if c.isDigit then
      let ds := if c = '0' then [c] else c :: r.takeWhile Char.isDigit
      let r1 := if c = '0' then r else r.dropWhile Char.isDigit
      match parseFraction r1 with
      | .error e => .error e
      | .ok (f, r2) =>
        match parseExponent r2 with
        | .error e => .error e
        | .ok (x, r3) => .ok (((digitsVal ds : ℚ) + f) * (10 : ℚ) ^ x, r3)
    else .error .syntaxError

/-- A JSON number. -/
def parseNumber (cs : List Char) : Except JsError (ℚ × List Char) :=
  match cs with
  | c :: r =>
    if c = '-' then
      match parseUnsigned r with
      | .error e => .error e
      | .ok (q, r1) => .ok (-q, r1)
    else parseUnsigned cs
  | [] => .error .syntaxError

/-- The elements of a non-empty JSON array after its opening bracket, read with
the value parser `pv`; `n` bounds the number of elements. -/
def parseElementsWith (pv : List Char → Except JsError (JsVal × List Char)) :
    Nat → List Char → List JsVal → Except JsError (List JsVal × List Char)
  | 0, _, _ => .error .outOfFuel
  | n + 1, cs, acc =>
    match pv cs with
    | .error e => .error e
    | .ok (v, rest) =>
      match skipWs rest with
      | c :: rest1 =>
        if c = ',' then parseElementsWith pv n rest1 (v :: acc)
        else if c = ']' then .ok ((v :: acc).reverse, rest1)
        else .error .syntaxError
      | [] => .error .syntaxError

/-- The members of a non-empty JSON object after its opening brace, read with
the value parser `pv`; `n` bounds the number of members. -/
def parseMembersWith (pv : List Char → Except JsError (JsVal × List Char)) :
    Nat → List Char → List (String × JsVal) →
    Except JsError (List (String × JsVal) × List Char)
  | 0, _, _ => .error .outOfFuel
  | n + 1, cs, acc =>
    match skipWs cs with
    | q :: r =>
      if q = '"' then
        match parseStringBody r [] with
        | .error e => .error e
        | .ok (k, r1) =>
          match skipWs r1 with
          | c :: r2 =>
            if c = ':' then
              match pv r2 with
              | .error e => .error e
              | .ok (v, r3) =>
                match skipWs r3 with
                | d :: r4 =>
                  if d = ',' then parseMembersWith pv n r4 ((k, v) :: acc)
                  else if d = '}' then .ok (((k, v) :: acc).reverse, r4)
                  else .error .syntaxError
                | [] => .error .syntaxError
            else .error .syntaxError
          | [] => .error .syntaxError
      else .error .syntaxError
    | [] => .error .syntaxError

/-- The result of a parser with its value wrapped by `f`. -/
def mapVal {α : Type} (f : α → JsVal) :
    Except JsError (α × List Char) → Except JsError (JsVal × List Char)
  | .error e => .error e
  | .ok (x, rest) => .ok (f x, rest)

/-- A JSON value, white space before it skipped; `fuel` bounds the nesting depth
and the number of elements of each array and object. -/
def parseValue : Nat → List Char → Except JsError (JsVal × List Char)
  | 0, _ => .error .outOfFuel
  | fuel + 1, cs =>
    match skipWs cs with
    | [] => .error .syntaxError
    | c :: r =>
      if c = '{' then
        match skipWs r with
        | c1 :: r1 =>
          if c1 = '}' then .ok (.obj [], r1)
          else mapVal JsVal.obj (parseMembersWith (parseValue fuel) fuel r [])
        | [] => .error .syntaxError
      else if c = '[' then
        match skipWs r with
        | c1 :: r1 =>
          if c1 = ']' then .ok (.arr [], r1)
          else mapVal JsVal.arr (parseElementsWith (parseValue fuel) fuel r [])
        | [] => .error .syntaxError
      else if c = '"' then mapVal JsVal.str (parseStringBody r [])
      else if c = 't' then
        match r with
        | 'r' :: 'u' :: 'e' :: r1 => .ok (.bool true, r1)
        | _ => .error .syntaxError
      else if c = 'f' then
        match r with
        | 'a' :: 'l' :: 's' :: 'e' :: r1 => .ok (.bool false, r1)
        | _ => .error .syntaxError
      else if c = 'n' then
        match r with
        | 'u' :: 'l' :: 'l' :: r1 => .ok (.null, r1)
        | _ => .error .syntaxError
      else mapVal JsVal.num (parseNumber (c :: r))

/-- `JSON.parse(text)` without reviver: one JSON value surrounded by optional white
space; anything else is a SyntaxError. -/
def JSON.parse (text : String) : Except JsError JsVal :=
  match parseValue (text.data.length + 1) text.data with
  | .error e => .error e
  | .ok (v, rest) =>
    match skipWs rest with
    | [] => .ok v
    | _ :: _ => .error .syntaxError

/-! ## Storage -/

/-- The browser's `localStorage`: a map from keys to string values. -/
abbrev LocalStorage := String → Option String

/-- `localStorage.getItem(key)`: `none` stands for `null`. -/
def LocalStorage.getItem (ls : LocalStorage) (key : String) : Option String := ls key

/-- `localStorage.setItem(key, value)`. -/
def LocalStorage.setItem (ls : LocalStorage) (key value : String) : LocalStorage :=
  fun k => if k = key then some value else ls k

/-- `localStorage.removeItem(key)`. -/
def LocalStorage.removeItem (ls : LocalStorage) (key : String) : LocalStorage :=
  fun k => if k = key then none else ls k

/-- `Storage.KEY`. -/
def Storage.KEY : String := "taskList"

/-- `Storage.save(tasks)`. -/
def Storage.save (tasks : List Task) (ls : LocalStorage) : LocalStorage :=
  ls.setItem Storage.KEY (JSON.stringify tasks)

/-- `Storage.clear()`. -/
def Storage.clear (ls : LocalStorage) : LocalStorage :=
  ls.removeItem Storage.KEY

/-- A `Task` instance as `Storage.get` builds it: the constructor and the three
assignments store whatever values the parsed JSON holds, so each property is an
arbitrary JavaScript value. -/
structure LoadedTask where
  id : JsVal
  title : JsVal
  description : JsVal
  date : JsVal
  time : JsVal
  completed : JsVal
  createdAt : JsVal

/-- The constructor `new Task(title, description, date, time)` applied to
arbitrary values. -/
def LoadedTask.new (clock : Clock) (title description date time : JsVal) : LoadedTask :=
  { id := .num clock.now
    title := title
    description := description
    date := date
    time := time
    completed := .bool false
    createdAt := .str clock.iso }

/-- The view of a `Task` with typed properties as a `LoadedTask`. -/
def Task.toLoaded (t : Task) : LoadedTask :=
  { id := .num t.id
    title := .str t.title
    description := .str t.description
    date := .str t.date
    time := .str t.time
    completed := .bool t.completed
    createdAt := .str t.createdAt }

/-- The value of property `name` among the members of a parsed object: the last
member with that key (a later duplicate overwrites an earlier one), `undefined`
when there is none. -/
def lookupMember (name : String) (kvs : List (String × JsVal)) : JsVal :=
  match kvs.reverse.find? fun kv => kv.1 = name with
  | some kv => kv.2
  | none => .undefined

/-- Property read `v.name` for one of the names `id`, `title`, `description`,
`date`, `time`, `completed`, `createdAt`: a TypeError on `null` and `undefined`,
the member of an object, `undefined` on numbers, booleans, strings and arrays
(whose prototypes define none of these names). -/
def JsVal.getProp (v : JsVal) (name : String) : Except JsError JsVal :=
  match v with
  | .undefined => .error .typeError
  | .null => .error .typeError
  | .obj kvs => .ok (lookupMember name kvs)
  | _ => .ok .undefined

/-- The callback of `tasks.map` in `Storage.get`. -/
def reviveTask (clock : Clock) (task : JsVal) : Except JsError LoadedTask :=
  match task.getProp "title", task.getProp "description", task.getProp "date",
    task.getProp "time", task.getProp "id", task.getProp "completed",
    task.getProp "createdAt" with
  | .ok title, .ok description, .ok date, .ok time, .ok id, .ok completed, .ok createdAt =>
    let newTask := LoadedTask.new clock title description date time
    let newTask := { newTask with id := id }
    let newTask := { newTask with completed := completed }
    let newTask := { newTask with createdAt := createdAt }
    .ok newTask
  | _, _, _, _, _, _, _ => .error .typeError

/-- The call `tasks.map(callback)` on an array, the constructor of element `i`
reading the clock `clock i`. -/
def reviveAll (clock : Nat → Clock) : Nat → List JsVal → Except JsError (List LoadedTask)
  | _, [] => .ok []
  | i, task :: rest =>
    match reviveTask (clock i) task with
    | .error e => .error e
    | .ok t =>
      match reviveAll clock (i + 1) rest with
      | .error e => .error e
      | .ok ts => .ok (t :: ts)

/-- `Storage.get()`. A value without a callable `map` (anything but an array)
makes `tasks.map(...)` a TypeError. -/
def Storage.get (clock : Nat → Clock) (ls : LocalStorage) : Except JsError (List LoadedTask) :=
  let tasksJSON := ls.getItem Storage.KEY
  let parsed : Except JsError JsVal :=
    match tasksJSON with
    | some text => if truthyStr text then JSON.parse text else .ok (.arr [])
    | none => .ok (.arr [])
  match parsed with
  | .error e => .error e
  | .ok (.arr xs) => reviveAll clock 0 xs
  | .ok _ => .error .typeError

/-! ## Application state and task management functions -/

/-- A rendered `.task-wrapper` element of the task list, as `generateTaskHTML`
writes it: its `data-id` attribute and whether its `.task-item` carries the
class `completed`. -/
structure Elem where
  dataId : Int
  completed : Bool
deriving DecidableEq, Repr

/-- The mutable state of the module and of the page: the variables `tasks`,
`isEditing` and `taskBeingEdited` (the referenced object, `none` for `null` and
`undefined`), the next free object address, `localStorage`, and the children of
the task list element in document order. An object referenced from both `tasks`
and `taskBeingEdited` appears in both with the same `ref`; an assignment to one
of its properties is applied to both. -/
structure State where
  tasks : List Task
  isEditing : Bool
  taskBeingEdited : Option Task
  nextRef : Nat
  localStorage : LocalStorage
  dom : List Elem

/-- The function `addTaskToArray(task)`. -/
def addTaskToArray (task : Task) (s : State) : State :=
  { s with tasks := s.tasks ++ [task] }

/-- The function `removeTaskFromArray(taskId)`. -/
def removeTaskFromArray (taskId : Int) (s : State) : State :=
  { s with tasks := s.tasks.filter fun task => task.id ≠ taskId }

/-- The function `getAllTasks()`. -/
def getAllTasks (s : State) : List Task := s.tasks

/-- The function `getActiveTasks()`. -/
def getActiveTasks (s : State) : List Task := s.tasks.filter fun task => !task.completed

/-- The function `getCompletedTasks()`. -/
def getCompletedTasks (s : State) : List Task := s.tasks.filter fun task => task.completed

/-- The object returned by `getTaskCount()`. -/
structure TaskCount where
  total : Nat
  active : Nat
  completed : Nat
deriving DecidableEq, Repr

/-- The function `getTaskCount()`. -/
def getTaskCount (s : State) : TaskCount :=
  { total := s.tasks.length
    active := (getActiveTasks s).length
    completed := (getCompletedTasks s).length }

/-- The function `generateTaskHTML(task)`, reduced to what the handlers read back
from the markup. -/
def generateTaskHTML (task : Task) : Elem :=
  { dataId := task.id, completed := task.completed }

/-- The function `addTaskToDOM(task)`. -/
def addTaskToDOM (task : Task) (s : State) : State :=
  { s with dom := s.dom ++ [generateTaskHTML task] }

/-- The function `renderAllTasks()`. -/
def renderAllTasks (s : State) : State :=
  { s with dom := s.tasks.map generateTaskHTML }

/-- Whether `document.querySelector` finds an element with the given `data-id`. -/
def hasElement (dataId : Int) (dom : List Elem) : Bool :=
  dom.any fun el => el.dataId = dataId

/-- The list of elements after the first one with the given `data-id` (the one
`document.querySelector` returns) has been replaced through `outerHTML`. -/
def replaceFirst (dataId : Int) (el : Elem) : List Elem → List Elem
  | [] => []
  | x :: xs => if x.dataId = dataId then el :: xs else x :: replaceFirst dataId el xs

/-- The list of elements after the first one with the given `data-id` has been
removed with `remove()`. -/
def removeFirst (dataId : Int) : List Elem → List Elem
  | [] => []
  | x :: xs => if x.dataId = dataId then xs else x :: removeFirst dataId xs

/-- The three numbers `updateTaskCounts()` writes into the page. -/
structure ShownCounts where
  total : Int
  completed : Int
  active : Int
deriving DecidableEq, Repr

/-- The function `updateTaskCounts()`: the numbers it computes and displays
(`active` is the difference of the other two). -/
def updateTaskCounts (s : State) : ShownCounts :=
  let total : Int := s.tasks.length
  let completed : Int := (s.tasks.filter fun task => task.completed).length
  let active := total - completed
  { total := total, completed := completed, active := active }

/-- The function `hideModal()`. -/
def hideModal (s : State) : State :=
  { s with isEditing := false, taskBeingEdited := none }

/-- The four assignments of the edit branch of `handleFormSubmit` on one object. -/
def assignForm (formData : FormData) (t : Task) : Task :=
  { t with
    title := formData.title
    description := formData.description
    date := formData.date
    time := formData.time }

/-- The end of `handleFormSubmit`, after either branch: `Storage.save(tasks)`,
then the counts, the form reset and `hideModal()`. -/
def saveAndClose (s : State) : State :=
  hideModal { s with localStorage := Storage.save s.tasks s.localStorage }

/-- The function `handleFormSubmit(e)`, `formData` being the values of the four
inputs. Returns the new state and the text alerted, if any. In the edit branch,
when no element carries the `data-id` of the edited task, the assignment to
`taskElement.outerHTML` raises a TypeError and the handler stops there: the four
properties have been assigned, the editing variables are not reset and nothing
is saved. -/
def handleFormSubmit (formData : FormData) (clock : Clock) (s : State) :
    State × Option String :=
  let errors := validateFormData formData
  if errors.length > 0 then
    (s, some (showErrors errors))
  else
    match s.isEditing, s.taskBeingEdited with
    | true, some edited =>
      -- Update existing task
      let s1 : State :=
        { s with
          tasks := s.tasks.map fun t => if t.ref = edited.ref then assignForm formData t else t
          taskBeingEdited := some (assignForm formData edited) }
      -- Update DOM
      if hasElement edited.id s1.dom then
        let s2 : State :=
          { s1 with
            dom := replaceFirst edited.id (generateTaskHTML (assignForm formData edited)) s1.dom
            isEditing := false
            taskBeingEdited := none }
        (saveAndClose s2, none)
      else (s1, none)
    | _, _ =>
      -- Create new task
      let newTask := Task.new s.nextRef clock formData.title formData.description
        formData.date formData.time
      let s1 : State := { s with tasks := s.tasks ++ [newTask], nextRef := s.nextRef + 1 }
      (saveAndClose (addTaskToDOM newTask s1), none)

/-- The function `deleteTask(taskId)`; `confirmed` is the answer to `confirm`.
When no element carries that `data-id`, `taskElement.remove()` raises a
TypeError after `tasks` has been reassigned and before anything is saved. -/
def deleteTask (taskId : Int) (confirmed : Bool) (s : State) : State :=
  if confirmed then
    let s1 : State := { s with tasks := s.tasks.filter fun task => task.id ≠ taskId }
    if hasElement taskId s1.dom then
      let s2 : State := { s1 with dom := removeFirst taskId s1.dom }
      { s2 with localStorage := Storage.save s2.tasks s2.localStorage }
    else s1
  else s

/-- The function `editTask(task)`; `none` stands for `undefined`, on which the
two assignments are made before reading `task.title` raises. -/
def editTask (task : Option Task) (s : State) : State :=
  { s with isEditing := true, taskBeingEdited := task }

/-- The click listener of the task list when the edit button of the element at
position `i` is clicked; `parseInt` reads back the `data-id` written by
`generateTaskHTML`. -/
def clickEdit (i : Nat) (s : State) : State :=
  match s.dom[i]? with
  | some el => editTask (s.tasks.find? fun t => t.id = el.dataId) s
  | none => s

/-- The click listener of the task list when the delete button of the element at
position `i` is clicked. -/
def clickDelete (i : Nat) (confirmed : Bool) (s : State) : State :=
  match s.dom[i]? with
  | some el => deleteTask el.dataId confirmed s
  | none => s

/-- The change listener of the task list when the checkbox of the element at
position `i` changes, `checked` being the new state of the checkbox. -/
def changeCheckbox (i : Nat) (checked : Bool) (s : State) : State :=
  match s.dom[i]? with
  | some el =>
    match s.tasks.find? fun t => t.id = el.dataId with
    | some task =>
      let s1 : State :=
        { s with
          tasks := s.tasks.map fun t =>
            if t.ref = task.ref then { t with completed := checked } else t
          taskBeingEdited := s.taskBeingEdited.map fun t =>
            if t.ref = task.ref then { t with completed := checked } else t
          dom := s.dom.set i { el with completed := checked } }
      { s1 with localStorage := Storage.save s1.tasks s1.localStorage }
    | none => s
  | none => s

/-- The function `clearCompletedTasks()`. -/
def clearCompletedTasks (s : State) : State :=
  let s1 : State :=
    { s with
      tasks := s.tasks.filter fun task => !task.completed
      dom := s.dom.filter fun el => !el.completed }
  { s1 with localStorage := Storage.save s1.tasks s1.localStorage }

/-! ## User events -/

/-- The user actions that reach the state: submitting the form, clicking the edit
or delete button of the element at a position of the task list, closing the
modal, changing the checkbox of an element, clearing completed tasks. An event
on a position that holds no element cannot happen and changes nothing. -/
inductive Event where
  | submit (formData : FormData) (clock : Clock)
  | edit (i : Nat)
  | cancel
  | check (i : Nat) (checked : Bool)
  | delete (i : Nat) (confirmed : Bool)
  | clearCompleted

/-- The state after the handler of one event. -/
def step (s : State) : Event → State
  | .submit formData clock => (handleFormSubmit formData clock s).1
  | .edit i => clickEdit i s
  | .cancel => hideModal s
  | .check i checked => changeCheckbox i checked s
  | .delete i confirmed => clickDelete i confirmed s
  | .clearCompleted => clearCompletedTasks s

/-- The state after a sequence of events. -/
def exec (s : State) : List Event → State
  | [] => s
  | e :: es => exec (step s e) es

/-- Whether `handleFormSubmit` constructs a `Task` in state `s` on `formData`. -/
def submitCreates (formData : FormData) (s : State) : Bool :=
  (validateFormData formData).length = 0 && !(s.isEditing && s.taskBeingEdited.isSome)

/-- The values of `Date.now()` read by the `Task` constructor while the events
are handled from state `s`, in order. -/
def clockReads (s : State) : List Event → List Int
  | [] => []
  | e :: es =>
    match e with
    | .submit formData clock =>
      if submitCreates formData s then clock.now :: clockReads (step s e) es
      else clockReads (step s e) es
    | _ => clockReads (step s e) es

/-- The state of a freshly loaded page with nothing stored. -/
def State.init : State :=
  { tasks := [], isEditing := false, taskBeingEdited := none, nextRef := 0,
    localStorage := fun _ => none, dom := [] }


/-! ## Definitions used to state the properties -/

/-- A parser result on input `cs` that is either a success which consumed at
least `k` characters or a SyntaxError. -/
def Shrinks {α : Type} (k : Nat) (cs : List Char) : Except JsError (α × List Char) → Prop
  | .ok (_, rest) => rest.length + k ≤ cs.length
  | .error e => e = .syntaxError

/-- The value `JSON.parse` yields for the serialisation of a task. -/
def Task.toJson (t : Task) : JsVal :=
  .obj [("id", .num t.id), ("title", .str t.title), ("description", .str t.description),
    ("date", .str t.date), ("time", .str t.time), ("completed", .bool t.completed),
    ("createdAt", .str t.createdAt)]

/-- The address and id of every task of the collection, in order. -/
def idRefs (s : State) : List (Nat × Int) := s.tasks.map fun t => (t.ref, t.id)

/-- The address and id of the task the handler of `e` constructs in state `s`,
if it constructs one. -/
def created (s : State) : Event → List (Nat × Int)
  | .submit formData clock => if submitCreates formData s then [(s.nextRef, clock.now)] else []
  | _ => []

/-- Whether the handler of the event can remove tasks from the collection. -/
def Event.removes : Event → Bool
  | .delete _ _ => true
  | .clearCompleted => true
  | _ => false

/-- Two tasks created while `Date.now()` returns 5, then the checkbox of the
first one ticked. -/
def dupEvents : List Event :=
  [ .submit ⟨"A", "a", "2024-06-01", "08:00"⟩ ⟨5, "c"⟩,
    .submit ⟨"B", "b", "2024-06-01", "09:00"⟩ ⟨5, "c"⟩,
    .check 0 true ]

/-- Two tasks created at clock values 5 and 6, then the checkbox of the first
one ticked. -/
def distinctEvents : List Event :=
  [ .submit ⟨"A", "a", "2024-06-01", "08:00"⟩ ⟨5, "c"⟩,
    .submit ⟨"B", "b", "2024-06-01", "09:00"⟩ ⟨6, "c"⟩,
    .check 0 true ]

/-- A state in which the only task, rendered as the only element, is being
edited. -/
def editingState : State :=
  { tasks := [Task.new 0 ⟨7, "c"⟩ "t" "d" "2024-01-01" "09:00"]
    isEditing := true
    taskBeingEdited := some (Task.new 0 ⟨7, "c"⟩ "t" "d" "2024-01-01" "09:00")
    nextRef := 1
    localStorage := fun _ => none
    dom := [⟨7, false⟩] }

/-- Two valid forms submitted in create mode while `Date.now()` returns 5. -/
def sameClockEvents : List Event :=
  [ .submit ⟨"A", "a", "2024-06-01", "08:00"⟩ ⟨5, "c"⟩,
    .submit ⟨"B", "b", "2024-06-01", "09:00"⟩ ⟨5, "c"⟩ ]

/-- A store whose task list was cut off in the middle of a write. -/
def truncatedStore : LocalStorage :=
  LocalStorage.setItem (fun _ => none) Storage.KEY "[\x7b\"id\":1,\"title\":\"Buy mi"

/-- A clock that always reads the same instant. -/
def fixedClock : Nat → Clock := fun _ => ⟨1717228800000, "2024-06-01T08:00:00.000Z"⟩

/-! ## Theorems -/

/-! ### Validation -/

theorem truthyStr_eq_false_iff (s : String) : truthyStr s = false ↔ s = "" := by
  cases s with
  | mk d => cases d <;> simp [truthyStr, String.ext_iff]

theorem trimChars_eq_nil_iff (cs : List Char) :
    trimChars cs = [] ↔ ∀ c ∈ cs, isTrimChar c = true := by
  unfold trimChars
  rw [List.reverse_eq_nil_iff, List.dropWhile_eq_nil_iff]
  constructor
  · intro h c hc
    by_cases hd : cs.dropWhile isTrimChar = []
    · exact (List.dropWhile_eq_nil_iff.mp hd) c hc
    · exfalso
      have hne : (cs.dropWhile isTrimChar) ≠ [] := hd
      obtain ⟨x, xs, hx⟩ := List.exists_cons_of_ne_nil hne
      have hhead : isTrimChar x = false := by
        have := List.head_dropWhile_not isTrimChar cs hne
        simpa [hx] using this
      have : isTrimChar x = true := h x (by simp [hx])
      simp [hhead] at this
  · intro h
    have : cs.dropWhile isTrimChar = [] := List.dropWhile_eq_nil_iff.mpr h
    simp [this]

theorem jsTrim_eq_empty_iff (s : String) :
    jsTrim s = "" ↔ ∀ c ∈ s.data, isTrimChar c = true := by
  rw [← trimChars_eq_nil_iff]
  simp [jsTrim, String.ext_iff]

/-- Claim C1. `validateFormData` returns the messages 'Title is required',
'Description is required', 'Date is required', 'Time is required', in that order,
each present exactly when its field is empty (title and description after
trimming). Hence the result is empty iff all four fields are non-empty; it is
['Title is required'] for the record with only the title empty, and all four
messages in order when every field is empty. -/
theorem validateFormData_spec (data : FormData) :
    validateFormData data =
        (if jsTrim data.title = "" then ["Title is required"] else []) ++
        (if jsTrim data.description = "" then ["Description is required"] else []) ++
        (if data.date = "" then ["Date is required"] else []) ++
        (if data.time = "" then ["Time is required"] else [])
    ∧ (validateFormData data = [] ↔
        jsTrim data.title ≠ "" ∧ jsTrim data.description ≠ "" ∧ data.date ≠ "" ∧
          data.time ≠ "")
    ∧ validateFormData ⟨"", "x", "2024-01-01", "09:00"⟩ = ["Title is required"]
    ∧ validateFormData ⟨"", "", "", ""⟩ =
        ["Title is required", "Description is required", "Date is required",
          "Time is required"] := by
  have hgen : validateFormData data =
        (if jsTrim data.title = "" then ["Title is required"] else []) ++
        (if jsTrim data.description = "" then ["Description is required"] else []) ++
        (if data.date = "" then ["Date is required"] else []) ++
        (if data.time = "" then ["Time is required"] else []) := by
    simp only [validateFormData, Id.run, bind, pure, Bool.not_eq_true', truthyStr_eq_false_iff]
    by_cases h1 : jsTrim data.title = "" <;> by_cases h2 : jsTrim data.description = "" <;>
      by_cases h3 : data.date = "" <;> by_cases h4 : data.time = "" <;>
      simp [h1, h2, h3, h4]
  refine ⟨hgen, ?_, by decide, by decide⟩
  rw [hgen]
  by_cases h1 : jsTrim data.title = "" <;> by_cases h2 : jsTrim data.description = "" <;>
      by_cases h3 : data.date = "" <;> by_cases h4 : data.time = "" <;>
      simp [h1, h2, h3, h4]

/-! ### Queries and counts -/

theorem filter_partition_length (l : List Task) :
    l.length = (l.filter fun task => !task.completed).length +
      (l.filter fun task => task.completed).length := by
  induction l with
  | nil => rfl
  | cons t ts ih =>
    cases h : t.completed <;> simp [List.filter_cons, h] <;> omega

/-- Claim C9. `getTaskCount` returns `total = active + completed`, where `total`
is the length of the collection, `active` the number of tasks with `completed`
false and `completed` the number with `completed` true; the three numbers
`updateTaskCounts` displays (with `active` computed as `total - completed`) are
the same. -/
theorem getTaskCount_spec (s : State) :
    (getTaskCount s).total = (getTaskCount s).active + (getTaskCount s).completed
    ∧ (getTaskCount s).total = s.tasks.length
    ∧ (getTaskCount s).active = s.tasks.countP (fun t => t.completed = false)
    ∧ (getTaskCount s).completed = s.tasks.countP (fun t => t.completed = true)
    ∧ (updateTaskCounts s).total = ((getTaskCount s).total : Int)
    ∧ (updateTaskCounts s).completed = ((getTaskCount s).completed : Int)
    ∧ (updateTaskCounts s).active = ((getTaskCount s).active : Int) := by
  have h := filter_partition_length s.tasks
  refine ⟨?_, rfl, ?_, ?_, rfl, rfl, ?_⟩
  · simpa [getTaskCount, getActiveTasks, getCompletedTasks] using h
  · simp [getTaskCount, getActiveTasks, List.countP_eq_length_filter]
  · simp [getTaskCount, getCompletedTasks, List.countP_eq_length_filter]
  · simp only [updateTaskCounts, getTaskCount, getActiveTasks]
    omega

/-- What the two queries guarantee in every state: the ids of the active tasks
together with the ids of the completed tasks are exactly the ids of all tasks;
and when no two tasks of the collection share an id, no id belongs to both an
active and a completed task. -/
theorem active_completed_ids (s : State) :
    ((getActiveTasks s).map Task.id).toFinset ∪ ((getCompletedTasks s).map Task.id).toFinset
        = ((getAllTasks s).map Task.id).toFinset
    ∧ (((getAllTasks s).map Task.id).Nodup →
        ((getActiveTasks s).map Task.id).toFinset ∩
          ((getCompletedTasks s).map Task.id).toFinset = ∅) := by
  constructor
  · ext i
    simp only [getActiveTasks, getCompletedTasks, getAllTasks, Finset.mem_union,
      List.mem_toFinset, List.mem_map, List.mem_filter]
    constructor
    · rintro (⟨t, ⟨ht, -⟩, rfl⟩ | ⟨t, ⟨ht, -⟩, rfl⟩) <;> exact ⟨t, ht, rfl⟩
    · rintro ⟨t, ht, rfl⟩
      cases h : t.completed
      · exact Or.inl ⟨t, ⟨ht, by simp [h]⟩, rfl⟩
      · exact Or.inr ⟨t, ⟨ht, h⟩, rfl⟩
  · intro hnd
    rw [Finset.eq_empty_iff_forall_not_mem]
    intro i hi
    simp only [getActiveTasks, getCompletedTasks, getAllTasks, Finset.mem_inter,
      List.mem_toFinset, List.mem_map, List.mem_filter] at hi hnd
    obtain ⟨⟨a, ⟨ha, hac⟩, rfl⟩, ⟨c, ⟨hc, hcc⟩, hid⟩⟩ := hi
    have := List.inj_on_of_nodup_map hnd hc ha hid
    subst this
    simp [hcc] at hac


/-- Claim C8 fails on the code: after two valid forms are submitted in create
mode while `Date.now()` returns 5 and the checkbox of the first task is ticked,
the ids of the active tasks and the ids of the completed tasks are both [5], so
the two sets of ids are not disjoint. -/
theorem active_completed_ids_overlap :
    (getActiveTasks (exec State.init dupEvents)).map Task.id = [5]
    ∧ (getCompletedTasks (exec State.init dupEvents)).map Task.id = [5]
    ∧ ((getActiveTasks (exec State.init dupEvents)).map Task.id).toFinset ∩
      ((getCompletedTasks (exec State.init dupEvents)).map Task.id).toFinset ≠ ∅ := by
  decide

/-- The theorem `active_completed_ids` applied to the state reached when the two
tasks are created at clock values 5 and 6 and the first one is ticked: the
active ids are [6], the completed ids are [5]. -/
theorem active_completed_ids_witness :
    ((getAllTasks (exec State.init distinctEvents)).map Task.id).Nodup
    ∧ (getActiveTasks (exec State.init distinctEvents)).map Task.id = [6]
    ∧ (getCompletedTasks (exec State.init distinctEvents)).map Task.id = [5]
    ∧ ((getActiveTasks (exec State.init distinctEvents)).map Task.id).toFinset ∩
          ((getCompletedTasks (exec State.init distinctEvents)).map Task.id).toFinset = ∅ :=
  ⟨by decide, by decide, by decide,
    (active_completed_ids (exec State.init distinctEvents)).2 (by decide)⟩

/-! ### Handlers -/

@[simp] theorem Storage.save_key (tasks : List Task) (ls : LocalStorage) :
    (Storage.save tasks ls).getItem Storage.KEY = some (JSON.stringify tasks) := by
  simp [Storage.save, LocalStorage.setItem, LocalStorage.getItem]

/-- Claim C7. `clearCompletedTasks` leaves exactly the previous active tasks, in
their order: it removes every task with `completed` true and nothing else, the
counts become (previous active, previous active, 0), and the remaining
collection is what is written to storage. In the scenario create A, tick A,
clear completed (A being the element at position 0 of the list), the counts are
(1,1,0), then (1,0,1), then (0,0,0). -/
theorem clearCompletedTasks_spec (s : State) :
    (clearCompletedTasks s).tasks = getActiveTasks s
    ∧ (∀ t, t ∈ (clearCompletedTasks s).tasks ↔ t ∈ s.tasks ∧ t.completed = false)
    ∧ (clearCompletedTasks s).tasks.Sublist s.tasks
    ∧ getTaskCount (clearCompletedTasks s) =
        { total := (getTaskCount s).active, active := (getTaskCount s).active, completed := 0 }
    ∧ (clearCompletedTasks s).localStorage.getItem Storage.KEY =
        some (JSON.stringify (getActiveTasks s))
    ∧ (∀ clock : Clock,
        getTaskCount (exec State.init
          [.submit ⟨"Buy milk", "2%", "2024-06-01", "08:00"⟩ clock]) =
            { total := 1, active := 1, completed := 0 }
        ∧ getTaskCount (exec State.init
          [.submit ⟨"Buy milk", "2%", "2024-06-01", "08:00"⟩ clock,
            .check 0 true]) = { total := 1, active := 0, completed := 1 }
        ∧ getTaskCount (exec State.init
          [.submit ⟨"Buy milk", "2%", "2024-06-01", "08:00"⟩ clock,
            .check 0 true, .clearCompleted]) =
            { total := 0, active := 0, completed := 0 }) := by
  refine ⟨rfl, ?_, ?_, ?_, ?_, ?_⟩
  · intro t
    simp [clearCompletedTasks, List.mem_filter]
  · simp [clearCompletedTasks]
  · simp [clearCompletedTasks, getTaskCount, getActiveTasks, getCompletedTasks,
      List.filter_filter]
  · simp [clearCompletedTasks, getActiveTasks]
  · intro clock
    have hv : validateFormData ⟨"Buy milk", "2%", "2024-06-01", "08:00"⟩ = [] := by decide
    refine ⟨?_, ?_, ?_⟩ <;>
      simp [exec, step, handleFormSubmit, hv, State.init, hideModal, getTaskCount,
        getActiveTasks, getCompletedTasks, Task.new, changeCheckbox, clearCompletedTasks,
        saveAndClose, addTaskToDOM, generateTaskHTML]

/-- Claim C5. When `validateFormData` returns a non-empty list, `handleFormSubmit`
changes nothing, whether or not an edit is in progress: the whole state (task
collection, editing variables, storage) is returned as it was, and the text
alerted is `showErrors` of exactly the list `validateFormData` returned. -/
theorem handleFormSubmit_invalid (formData : FormData) (clock : Clock) (s : State)
    (h : validateFormData formData ≠ []) :
    handleFormSubmit formData clock s = (s, some (showErrors (validateFormData formData))) := by
  unfold handleFormSubmit
  have : (validateFormData formData).length > 0 := List.length_pos.mpr h
  simp [this]

/-- The theorem `handleFormSubmit_invalid` applied to a form with an empty title,
submitted while a task is being edited. -/
theorem handleFormSubmit_invalid_witness :
    validateFormData ⟨"", "x", "2024-01-01", "09:00"⟩ ≠ [] ∧
      handleFormSubmit ⟨"", "x", "2024-01-01", "09:00"⟩ ⟨1717228800000, "2024-06-01T08:00:00.000Z"⟩
        editingState =
        (editingState, some (showErrors (validateFormData ⟨"", "x", "2024-01-01", "09:00"⟩))) :=
  ⟨by decide, handleFormSubmit_invalid _ _ _ (by decide)⟩

/-- Claim C4. On a form that validates, with no edit in progress,
`handleFormSubmit` appends one new task to the collection and changes no other
task: the new task carries the submitted title, description, date and time and
`completed = false`, the total count grows by exactly 1, the new collection is
what is written to storage, and nothing is alerted. -/
theorem handleFormSubmit_create (formData : FormData) (clock : Clock) (s : State)
    (hvalid : validateFormData formData = [])
    (hmode : ¬ (s.isEditing = true ∧ s.taskBeingEdited.isSome = true)) :
    (handleFormSubmit formData clock s).1.tasks =
        s.tasks ++ [Task.new s.nextRef clock formData.title formData.description
          formData.date formData.time]
    ∧ (Task.new s.nextRef clock formData.title formData.description
          formData.date formData.time).title = formData.title
    ∧ (Task.new s.nextRef clock formData.title formData.description
          formData.date formData.time).description = formData.description
    ∧ (Task.new s.nextRef clock formData.title formData.description
          formData.date formData.time).date = formData.date
    ∧ (Task.new s.nextRef clock formData.title formData.description
          formData.date formData.time).time = formData.time
    ∧ (Task.new s.nextRef clock formData.title formData.description
          formData.date formData.time).completed = false
    ∧ (getTaskCount (handleFormSubmit formData clock s).1).total = (getTaskCount s).total + 1
    ∧ (handleFormSubmit formData clock s).1.localStorage.getItem Storage.KEY =
        some (JSON.stringify (handleFormSubmit formData clock s).1.tasks)
    ∧ (handleFormSubmit formData clock s).2 = none := by
  have hs : (handleFormSubmit formData clock s).1.tasks =
        s.tasks ++ [Task.new s.nextRef clock formData.title formData.description
          formData.date formData.time] := by
    unfold handleFormSubmit
    cases he : s.isEditing <;> cases ht : s.taskBeingEdited <;>
      simp_all [hideModal, saveAndClose, addTaskToDOM]
  refine ⟨hs, rfl, rfl, rfl, rfl, rfl, ?_, ?_, ?_⟩
  · simp [getTaskCount, hs]
  · unfold handleFormSubmit
    cases he : s.isEditing <;> cases ht : s.taskBeingEdited <;>
      simp_all [hideModal, saveAndClose, addTaskToDOM]
  · unfold handleFormSubmit
    cases he : s.isEditing <;> cases ht : s.taskBeingEdited <;>
      simp_all [hideModal, saveAndClose, addTaskToDOM]

/-- The theorem `handleFormSubmit_create` applied to the form of the 'Buy milk'
task in the initial state. -/
theorem handleFormSubmit_create_witness :
    validateFormData ⟨"Buy milk", "2%", "2024-06-01", "08:00"⟩ = [] ∧
    ¬ (State.init.isEditing = true ∧ State.init.taskBeingEdited.isSome = true) ∧
    (handleFormSubmit ⟨"Buy milk", "2%", "2024-06-01", "08:00"⟩ ⟨1717228800000, "c"⟩
        State.init).1.tasks =
      State.init.tasks ++ [Task.new State.init.nextRef ⟨1717228800000, "c"⟩ "Buy milk" "2%"
        "2024-06-01" "08:00"] :=
  ⟨by decide, by decide,
    (handleFormSubmit_create ⟨"Buy milk", "2%", "2024-06-01", "08:00"⟩ ⟨1717228800000, "c"⟩
      State.init (by decide) (by decide)).1⟩



/-- Claim C6. `removeTaskFromArray`, and `deleteTask` once confirmed, leave
exactly the tasks whose id differs from the given one, in their original
order; when no task has that id the collection is unchanged; after creating A
and then B with a different id and deleting B by id (by a call of `deleteTask`,
or by a click on the delete button of B, the element at position 1) the
collection is [A]. -/
theorem removeTask_spec (s : State) (taskId : Int) :
    (removeTaskFromArray taskId s).tasks = s.tasks.filter (fun t => decide (t.id ≠ taskId))
    ∧ (deleteTask taskId true s).tasks = (removeTaskFromArray taskId s).tasks
    ∧ (removeTaskFromArray taskId s).tasks.Sublist s.tasks
    ∧ (∀ t, t ∈ (removeTaskFromArray taskId s).tasks ↔ t ∈ s.tasks ∧ t.id ≠ taskId)
    ∧ ((∀ t ∈ s.tasks, t.id ≠ taskId) →
        (removeTaskFromArray taskId s).tasks = s.tasks ∧
          (deleteTask taskId true s).tasks = s.tasks)
    ∧ (∀ (fa fb : FormData) (ca cb : Clock),
        validateFormData fa = [] → validateFormData fb = [] → ca.now ≠ cb.now →
        (deleteTask cb.now true (exec State.init [.submit fa ca, .submit fb cb])).tasks =
          [Task.new 0 ca fa.title fa.description fa.date fa.time]
        ∧ (exec State.init [.submit fa ca, .submit fb cb, .delete 1 true]).tasks =
          [Task.new 0 ca fa.title fa.description fa.date fa.time]) := by
  have hdel : (deleteTask taskId true s).tasks = (removeTaskFromArray taskId s).tasks := by
    simp only [deleteTask, removeTaskFromArray, if_true]
    split <;> rfl
  refine ⟨rfl, hdel, ?_, ?_, ?_, ?_⟩
  · simp [removeTaskFromArray]
  · intro t
    simp [removeTaskFromArray, List.mem_filter]
  · intro h
    have : (removeTaskFromArray taskId s).tasks = s.tasks := by
      simp only [removeTaskFromArray]
      rw [List.filter_eq_self]
      intro t ht
      simpa using h t ht
    exact ⟨this, hdel.trans this⟩
  · intro fa fb ca cb ha hb hne
    constructor <;>
      simp [exec, step, handleFormSubmit, ha, hb, State.init, hideModal, deleteTask, Task.new,
        List.filter_cons, hne, saveAndClose, addTaskToDOM, generateTaskHTML, clickDelete,
        hasElement, removeFirst]

/-- The theorem `removeTask_spec` applied to an id that no task of a non-empty
collection has, and to the scenario with ids 1 and 2. -/
theorem removeTask_spec_witness :
    ((∀ t ∈ editingState.tasks, t.id ≠ 3) ∧
      (removeTaskFromArray 3 editingState).tasks = editingState.tasks ∧
      (deleteTask 3 true editingState).tasks = editingState.tasks)
    ∧ (validateFormData ⟨"A", "a", "2024-06-01", "08:00"⟩ = [] ∧
      validateFormData ⟨"B", "b", "2024-06-01", "09:00"⟩ = [] ∧
      (1 : Int) ≠ 2 ∧
      (exec State.init [.submit ⟨"A", "a", "2024-06-01", "08:00"⟩ ⟨1, "x"⟩,
        .submit ⟨"B", "b", "2024-06-01", "09:00"⟩ ⟨2, "y"⟩, .delete 1 true]).tasks =
          [Task.new 0 ⟨1, "x"⟩ "A" "a" "2024-06-01" "08:00"]) :=
  ⟨⟨by decide, ((removeTask_spec editingState 3).2.2.2.2.1 (by decide)).1,
      ((removeTask_spec editingState 3).2.2.2.2.1 (by decide)).2⟩,
   ⟨by decide, by decide, by decide,
    ((removeTask_spec State.init 3).2.2.2.2.2 ⟨"A", "a", "2024-06-01", "08:00"⟩
      ⟨"B", "b", "2024-06-01", "09:00"⟩ ⟨1, "x"⟩ ⟨2, "y"⟩ (by decide) (by decide)
      (by decide)).2⟩⟩

/-! ### Ids along a sequence of events -/

theorem clockReads_cons (s : State) (e : Event) (es : List Event) :
    clockReads s (e :: es) = (created s e).map Prod.snd ++ clockReads (step s e) es := by
  cases e <;> simp [clockReads, created]
  split <;> simp

theorem map_assign_idRefs (tasks : List Task) (p : Task → Prop) [DecidablePred p]
    (f : Task → Task) (hf : ∀ t, (f t).ref = t.ref ∧ (f t).id = t.id) :
    (tasks.map fun t => if p t then f t else t).map (fun t => (t.ref, t.id)) =
      tasks.map (fun t => (t.ref, t.id)) := by
  induction tasks with
  | nil => rfl
  | cons t ts ih =>
    simp only [List.map_cons, ih, List.cons.injEq, and_true]
    split
    · rw [(hf t).1, (hf t).2]
    · rfl

theorem idRefs_step_eq (s : State) (e : Event) (h : e.removes = false) :
    idRefs (step s e) = idRefs s ++ created s e := by
  cases e with
  | submit formData clock =>
    obtain ⟨tasks, isEditing, edited, nextRef, ls, dom⟩ := s
    simp only [step, handleFormSubmit, created, submitCreates, idRefs]
    by_cases hv : (validateFormData formData).length > 0
    · have : ¬ (validateFormData formData).length = 0 := by omega
      simp [hv, this]
    · have h0 : (validateFormData formData).length = 0 := by omega
      have hmap := fun (r : Nat) => map_assign_idRefs tasks (fun t => t.ref = r)
        (assignForm formData) (fun t => ⟨rfl, rfl⟩)
      cases isEditing <;> cases edited <;>
        simp [h0, hideModal, Task.new, saveAndClose, addTaskToDOM, apply_ite, hmap]
  | edit i =>
    simp only [step, clickEdit, created, idRefs, List.append_nil]
    split <;> rfl
  | cancel => simp [step, hideModal, created, idRefs]
  | check i checked =>
    simp only [step, changeCheckbox, created, idRefs, List.append_nil]
    split
    · split
      · exact map_assign_idRefs _ _ _ (fun t => ⟨rfl, rfl⟩)
      · rfl
    · rfl
  | delete i confirmed => simp [Event.removes] at h
  | clearCompleted => simp [Event.removes] at h

theorem idRefs_step (s : State) (e : Event) :
    (idRefs (step s e)).Sublist (idRefs s ++ created s e) := by
  cases hr : e.removes
  · rw [idRefs_step_eq s e hr]
  · cases e with
    | delete i confirmed =>
      simp only [step, clickDelete, created, idRefs, List.append_nil]
      split
      · cases confirmed
        · simp [deleteTask]
        · simp only [deleteTask, if_true]
          split <;> exact (List.filter_sublist _).map _
      · exact List.Sublist.refl _
    | clearCompleted =>
      simp only [step, clearCompletedTasks, created, idRefs, List.append_nil]
      exact (List.filter_sublist _).map _
    | submit formData clock => simp [Event.removes] at hr
    | edit i => simp [Event.removes] at hr
    | cancel => simp [Event.removes] at hr
    | check i checked => simp [Event.removes] at hr

theorem ids_exec_sublist (es : List Event) : ∀ s : State,
    ((exec s es).tasks.map Task.id).Sublist (s.tasks.map Task.id ++ clockReads s es) := by
  induction es with
  | nil => intro s; simp [exec, clockReads]
  | cons e es ih =>
    intro s
    rw [clockReads_cons, exec]
    refine (ih (step s e)).trans ?_
    rw [← List.append_assoc]
    refine List.Sublist.append ?_ (List.Sublist.refl _)
    have h := (idRefs_step s e).map Prod.snd
    simpa [idRefs, List.map_map, Function.comp_def] using h

/-- What the code does guarantee about ids. From any state with an empty
collection, after any sequence of events in which each `Task` construction reads
a clock value strictly greater than the earlier ones, no two tasks of the
collection have the same id. And the handler of any event leaves every task
object that stays in the collection with the id it had: the list of (address,
id) pairs afterwards is a sublist of the list before, followed by the pair of
the newly constructed task if there is one; it is that whole list unless the
event is a delete or a clear-completed. -/
theorem ids_unique_of_increasing_clock :
    (∀ (s0 : State) (es : List Event), s0.tasks = [] →
      (clockReads s0 es).Pairwise (· < ·) → ((exec s0 es).tasks.map Task.id).Nodup)
    ∧ (∀ (s : State) (e : Event), (idRefs (step s e)).Sublist (idRefs s ++ created s e))
    ∧ (∀ (s : State) (e : Event), e.removes = false →
        idRefs (step s e) = idRefs s ++ created s e) := by
  refine ⟨?_, idRefs_step, idRefs_step_eq⟩
  intro s0 es h0 h
  have hsub := ids_exec_sublist es s0
  simp only [h0, List.map_nil, List.nil_append] at hsub
  have hs : ((exec s0 es).tasks.map Task.id).Pairwise (· < ·) := h.sublist hsub
  exact hs.imp (fun hab => ne_of_lt hab)

/-- Claim C10 fails on the code: when two valid forms are submitted in create
mode while `Date.now()` returns 5 (a non-decreasing sequence of clock values),
the collection holds two tasks with id 5, although the comment above
`this.id = Date.now()` calls the id a unique identifier. -/
theorem ids_not_unique_same_clock :
    (clockReads State.init sameClockEvents).Pairwise (· ≤ ·) ∧
      (exec State.init sameClockEvents).tasks.map Task.id = [5, 5] ∧
      ¬ ((exec State.init sameClockEvents).tasks.map Task.id).Nodup := by
  decide

/-! ### Round trip through `JSON.stringify` and `JSON.parse` -/

theorem hex4_control : ∀ n, n < 32 →
    hex4 '0' '0' (hexDigit (n / 16)) (hexDigit (n % 16)) = some n := by
  decide

theorem char_ofNat_toNat (c : Char) : Char.ofNat c.toNat = c := by
  simp [Char.ofNat, Char.toNat, c.valid]
  rfl

theorem parseStringBody_quoteChar (c : Char) (tail : List Char) (acc : List Nat) :
    parseStringBody (quoteChar c ++ tail) acc = parseStringBody tail (c.toNat :: acc) := by
  unfold quoteChar
  split_ifs with h1 h2 h3 h4 h5 h6 h7 h8
  · subst h1; rw [parseStringBody.eq_def]; simp
  · subst h2; rw [parseStringBody.eq_def]; simp
  · subst h3; rw [parseStringBody.eq_def]; simp
  · subst h4; rw [parseStringBody.eq_def]; simp
  · subst h5; rw [parseStringBody.eq_def]; simp
  · subst h6; rw [parseStringBody.eq_def]; simp
  · subst h7; rw [parseStringBody.eq_def]; simp
  · rw [List.cons_append, parseStringBody.eq_def]; simp [hex4_control _ h8]
  · rw [List.cons_append, parseStringBody.eq_def]; simp [h1, h2, h8]

theorem parseStringBody_flatMap (cs : List Char) : ∀ (rest : List Char) (acc : List Nat),
    parseStringBody (cs.flatMap quoteChar ++ '"' :: rest) acc =
      .ok (⟨decodeUnits (acc.reverse ++ cs.map Char.toNat)⟩, rest) := by
  induction cs with
  | nil =>
    intro rest acc
    rw [List.flatMap_nil, List.nil_append, parseStringBody.eq_def]
    simp
  | cons c cs ih =>
    intro rest acc
    rw [List.flatMap_cons, List.append_assoc, parseStringBody_quoteChar, ih]
    simp

theorem unitToChar_toNat (c : Char) : unitToChar c.toNat = c := by
  have hv := c.valid
  have hne : ¬ (0xD800 ≤ c.toNat ∧ c.toNat ≤ 0xDFFF) := by
    simp only [Char.toNat] at *
    rcases hv with h | ⟨h1, h2⟩
    · omega
    · omega
  simp only [unitToChar, hne, if_false, char_ofNat_toNat]

theorem decodeUnits_map_toNat (cs : List Char) : decodeUnits (cs.map Char.toNat) = cs := by
  induction cs with
  | nil => rfl
  | cons a cs ih =>
    cases cs with
    | nil => simp [decodeUnits, unitToChar_toNat]
    | cons b cs =>
      have hv := a.valid
      have hne : ¬ (0xD800 ≤ a.toNat ∧ a.toNat ≤ 0xDBFF) := by
        simp only [Char.toNat] at *
        rcases hv with h | ⟨h1, h2⟩
        · omega
        · omega
      simp only [List.map_cons] at ih ⊢
      rw [decodeUnits]
      simp only [hne, false_and, if_false, unitToChar_toNat, ih]

theorem parseStringBody_quote (s : String) (rest : List Char) :
    parseStringBody (s.data.flatMap quoteChar ++ '"' :: rest) [] = .ok (s, rest) := by
  rw [parseStringBody_flatMap]
  simp [decodeUnits_map_toNat]


theorem digitChar_props : ∀ d, d < 10 →
    (Char.ofNat (48 + d)).isDigit = true ∧ (Char.ofNat (48 + d)).toNat - 48 = d ∧
    (d ≠ 0 → Char.ofNat (48 + d) ≠ '0') ∧ Char.ofNat (48 + d) ≠ '-' ∧
    isJsonWs (Char.ofNat (48 + d)) = false ∧
    Char.ofNat (48 + d) ≠ '{' ∧ Char.ofNat (48 + d) ≠ '[' ∧ Char.ofNat (48 + d) ≠ '"' ∧
    Char.ofNat (48 + d) ≠ 't' ∧ Char.ofNat (48 + d) ≠ 'f' ∧ Char.ofNat (48 + d) ≠ 'n' := by
  decide

theorem takeWhile_append_stop {α : Type} (p : α → Bool) (l : List α) (c : α) (rest : List α)
    (hl : ∀ x ∈ l, p x = true) (hc : p c = false) :
    (l ++ c :: rest).takeWhile p = l ∧ (l ++ c :: rest).dropWhile p = c :: rest := by
  induction l with
  | nil => simp [List.takeWhile, List.dropWhile, hc]
  | cons a l ih =>
    have ha : p a = true := hl a (by simp)
    have := ih (fun x hx => hl x (by simp [hx]))
    simp [List.takeWhile_cons, List.dropWhile_cons, ha, this]

theorem digitsVal_append_single (ds : List Char) (c : Char) :
    digitsVal (ds ++ [c]) = digitsVal ds * 10 + (c.toNat - 48) := by
  simp [digitsVal, List.foldl_append]

theorem digitsVal_reverse_map (l : List Nat) (hl : ∀ d ∈ l, d < 10) :
    digitsVal (l.reverse.map fun d => Char.ofNat (48 + d)) = Nat.ofDigits 10 l := by
  induction l with
  | nil => rfl
  | cons a l ih =>
    have ha : a < 10 := hl a (by simp)
    rw [List.reverse_cons, List.map_append, List.map_singleton, digitsVal_append_single,
      ih (fun d hd => hl d (by simp [hd])), (digitChar_props a ha).2.1, Nat.ofDigits_cons]
    omega

theorem digitsVal_natDigits (n : Nat) : digitsVal (natDigits n) = n := by
  unfold natDigits
  rw [digitsVal_reverse_map _ (fun d hd => Nat.digits_lt_base (by norm_num) hd),
    Nat.ofDigits_digits]

theorem natDigits_shape (n : Nat) (hn : n ≠ 0) :
    ∃ d ds, natDigits n = Char.ofNat (48 + d) :: ds ∧ d < 10 ∧ d ≠ 0 ∧
      ∀ c ∈ ds, c.isDigit = true := by
  have hne : Nat.digits 10 n ≠ [] := Nat.digits_ne_nil_iff_ne_zero.mpr hn
  have hlast := Nat.getLast_digit_ne_zero 10 hn
  have hsplit := List.dropLast_append_getLast hne
  refine ⟨(Nat.digits 10 n).getLast hne,
    (Nat.digits 10 n).dropLast.reverse.map (fun d => Char.ofNat (48 + d)), ?_, ?_, hlast, ?_⟩
  · unfold natDigits
    conv_lhs => rw [← hsplit]
    simp
  · exact Nat.digits_lt_base (by norm_num) (List.getLast_mem hne)
  · intro c hc
    simp only [List.mem_map, List.mem_reverse] at hc
    obtain ⟨d, hd, rfl⟩ := hc
    exact (digitChar_props d (Nat.digits_lt_base (by norm_num)
      (List.mem_of_mem_dropLast hd))).1

theorem parseUnsigned_natDigits (n : Nat) (hn : n ≠ 0) (rest : List Char) :
    parseUnsigned (natDigits n ++ ',' :: rest) = .ok ((n : ℚ), ',' :: rest) := by
  obtain ⟨d, ds, hshape, hd, hd0, hds⟩ := natDigits_shape n hn
  have hval := digitsVal_natDigits n
  rw [hshape] at hval ⊢
  have hp := digitChar_props d hd
  have hspan := takeWhile_append_stop Char.isDigit ds ',' rest hds (by decide)
  simp [parseUnsigned, hp.1, hp.2.2.1 hd0, hspan.1, hspan.2, parseFraction, parseExponent, hval]

theorem parseNumber_intToChars (i : Int) (rest : List Char) :
    parseNumber (intToChars i ++ ',' :: rest) = .ok ((i : ℚ), ',' :: rest) := by
  unfold intToChars
  split_ifs with h0 hneg
  · subst h0
    simp [parseNumber, parseUnsigned, parseFraction, parseExponent, digitsVal]
  · have hn : i.natAbs ≠ 0 := by omega
    have hi : (i : ℚ) = -((i.natAbs : ℕ) : ℚ) := by
      have h : ((i.natAbs : ℕ) : Int) = -i := by omega
      rw [← Int.cast_natCast, h, Int.cast_neg, neg_neg]
    simp [parseNumber, parseUnsigned_natDigits _ hn, hi]
  · have hn : i.natAbs ≠ 0 := by omega
    have hi : (i : ℚ) = ((i.natAbs : ℕ) : ℚ) := by
      have h : ((i.natAbs : ℕ) : Int) = i := Int.natAbs_of_nonneg (by omega)
      rw [← Int.cast_natCast, h]
    obtain ⟨d, ds, hshape, hd, hd0, hds⟩ := natDigits_shape _ hn
    have hp := digitChar_props d hd
    have hu := parseUnsigned_natDigits _ hn rest
    rw [hshape] at hu ⊢
    simp only [List.cons_append, parseNumber] at hu ⊢
    simp [hp.2.2.2.1, hu, hi]


theorem skipWs_cons_of_not_ws (c : Char) (cs : List Char) (h : isJsonWs c = false) :
    skipWs (c :: cs) = c :: cs := by
  simp [skipWs, List.dropWhile_cons, h]

theorem quoteJSONString_append (s : String) (rest : List Char) :
    quoteJSONString s ++ rest = '"' :: (s.data.flatMap quoteChar ++ '"' :: rest) := by
  simp [quoteJSONString]

theorem parseValue_string (fuel : Nat) (s : String) (rest : List Char) :
    parseValue (fuel + 1) (quoteJSONString s ++ rest) = .ok (.str s, rest) := by
  rw [quoteJSONString_append, parseValue, skipWs_cons_of_not_ws _ _ (by decide)]
  simp [parseStringBody_quote, mapVal]

theorem intToChars_head (i : Int) :
    ∃ c r, intToChars i = c :: r ∧ isJsonWs c = false ∧ c ≠ '{' ∧ c ≠ '[' ∧ c ≠ '"' ∧
      c ≠ 't' ∧ c ≠ 'f' ∧ c ≠ 'n' := by
  unfold intToChars
  split_ifs with h0 hneg
  · exact ⟨'0', [], rfl, by decide⟩
  · exact ⟨'-', _, rfl, by decide⟩
  · obtain ⟨d, ds, hshape, hd, -, -⟩ := natDigits_shape i.natAbs (by omega)
    have hp := digitChar_props d hd
    exact ⟨_, _, hshape, hp.2.2.2.2.1, hp.2.2.2.2.2.1, hp.2.2.2.2.2.2.1, hp.2.2.2.2.2.2.2.1,
      hp.2.2.2.2.2.2.2.2.1, hp.2.2.2.2.2.2.2.2.2.1, hp.2.2.2.2.2.2.2.2.2.2⟩

theorem parseValue_int (fuel : Nat) (i : Int) (rest : List Char) :
    parseValue (fuel + 1) (intToChars i ++ ',' :: rest) = .ok (.num i, ',' :: rest) := by
  have hnum := parseNumber_intToChars i rest
  obtain ⟨c, r, hcr, hws, h1, h2, h3, h4, h5, h6⟩ := intToChars_head i
  rw [hcr] at hnum ⊢
  rw [List.cons_append] at hnum ⊢
  rw [parseValue, skipWs_cons_of_not_ws _ _ hws]
  simp [h1, h2, h3, h4, h5, h6, hnum, mapVal]

theorem parseValue_bool (fuel : Nat) (b : Bool) (rest : List Char) :
    parseValue (fuel + 1) ((if b then "true".data else "false".data) ++ rest) =
      .ok (.bool b, rest) := by
  cases b
  · show parseValue (fuel + 1) ('f' :: 'a' :: 'l' :: 's' :: 'e' :: rest) = _
    rw [parseValue, skipWs_cons_of_not_ws _ _ (by decide)]
    simp
  · show parseValue (fuel + 1) ('t' :: 'r' :: 'u' :: 'e' :: rest) = _
    rw [parseValue, skipWs_cons_of_not_ws _ _ (by decide)]
    simp

theorem parseMembersWith_step (pv : List Char → Except JsError (JsVal × List Char))
    (n : Nat) (key : String) (value : List Char) (val : JsVal) (more : List Char)
    (acc : List (String × JsVal)) (hpv : pv (value ++ ',' :: more) = .ok (val, ',' :: more)) :
    parseMembersWith pv (n + 1) (stringifyMember key value ++ ',' :: more) acc =
      parseMembersWith pv n more ((key, val) :: acc) := by
  have h : stringifyMember key value ++ ',' :: more =
      '"' :: (key.data.flatMap quoteChar ++ '"' :: ':' :: (value ++ ',' :: more)) := by
    simp [stringifyMember, quoteJSONString]
  rw [h, parseMembersWith, skipWs_cons_of_not_ws _ _ (by decide)]
  simp only [if_true, parseStringBody_quote]
  rw [skipWs_cons_of_not_ws _ _ (by decide)]
  simp only [if_true, hpv]
  rw [skipWs_cons_of_not_ws _ _ (by decide)]
  simp

theorem parseMembersWith_last (pv : List Char → Except JsError (JsVal × List Char))
    (n : Nat) (key : String) (value : List Char) (val : JsVal) (rest : List Char)
    (acc : List (String × JsVal)) (hpv : pv (value ++ '}' :: rest) = .ok (val, '}' :: rest)) :
    parseMembersWith pv (n + 1) (stringifyMember key value ++ '}' :: rest) acc =
      .ok (((key, val) :: acc).reverse, rest) := by
  have h : stringifyMember key value ++ '}' :: rest =
      '"' :: (key.data.flatMap quoteChar ++ '"' :: ':' :: (value ++ '}' :: rest)) := by
    simp [stringifyMember, quoteJSONString]
  rw [h, parseMembersWith, skipWs_cons_of_not_ws _ _ (by decide)]
  simp only [if_true, parseStringBody_quote]
  rw [skipWs_cons_of_not_ws _ _ (by decide)]
  simp only [if_true, hpv]
  rw [skipWs_cons_of_not_ws _ _ (by decide)]
  simp

theorem parseValue_task (fuel : Nat) (t : Task) (rest : List Char) :
    parseValue (fuel + 8) (stringifyTask t ++ rest) = .ok (t.toJson, rest) := by
  have hfuel : fuel + 8 = (fuel + 7) + 1 := rfl
  have hpv : fuel + 7 = (fuel + 6) + 1 := rfl
  unfold stringifyTask
  rw [hfuel, List.cons_append, parseValue, skipWs_cons_of_not_ws _ _ (by decide)]
  have hq : ∀ k v r, skipWs (stringifyMember k v ++ r) = stringifyMember k v ++ r := by
    intro k v r
    simp only [stringifyMember, quoteJSONString, List.cons_append]
    exact skipWs_cons_of_not_ws _ _ (by decide)
  have hhead : ∀ k v r, ∃ tl, stringifyMember k v ++ r = '"' :: tl := by
    intro k v r
    refine ⟨k.data.flatMap quoteChar ++ ['"'] ++ ':' :: v ++ r, ?_⟩
    simp [stringifyMember, quoteJSONString]
  simp only [List.append_assoc, List.cons_append, List.nil_append]
  obtain ⟨tl, htl⟩ := hhead "id" (intToChars t.id) (',' :: (stringifyMember "title" (quoteJSONString t.title) ++
    ',' :: (stringifyMember "description" (quoteJSONString t.description) ++
    ',' :: (stringifyMember "date" (quoteJSONString t.date) ++
    ',' :: (stringifyMember "time" (quoteJSONString t.time) ++
    ',' :: (stringifyMember "completed" (if t.completed then "true".data else "false".data) ++
    ',' :: (stringifyMember "createdAt" (quoteJSONString t.createdAt) ++ '}' :: rest)))))))
  have hsk := hq "id" (intToChars t.id) (',' :: (stringifyMember "title" (quoteJSONString t.title) ++
    ',' :: (stringifyMember "description" (quoteJSONString t.description) ++
    ',' :: (stringifyMember "date" (quoteJSONString t.date) ++
    ',' :: (stringifyMember "time" (quoteJSONString t.time) ++
    ',' :: (stringifyMember "completed" (if t.completed then "true".data else "false".data) ++
    ',' :: (stringifyMember "createdAt" (quoteJSONString t.createdAt) ++ '}' :: rest)))))))
  rw [hsk, htl]
  simp only [show ¬ ('{' = '[') by decide, show ¬ ('"' = '}') by decide, if_true, if_false]
  rw [← htl, hpv]
  rw [parseMembersWith_step _ _ _ _ _ _ _ (parseValue_int _ _ _),
    parseMembersWith_step _ _ _ _ _ _ _ (parseValue_string _ _ _),
    parseMembersWith_step _ _ _ _ _ _ _ (parseValue_string _ _ _),
    parseMembersWith_step _ _ _ _ _ _ _ (parseValue_string _ _ _),
    parseMembersWith_step _ _ _ _ _ _ _ (parseValue_string _ _ _),
    parseMembersWith_step _ _ _ _ _ _ _ (parseValue_bool _ _ _),
    parseMembersWith_last _ _ _ _ _ _ _ (parseValue_string _ _ _)]
  rfl


theorem stringifyTask_head (t : Task) (rest : List Char) :
    ∃ tl, stringifyTask t ++ rest = '{' :: tl :=
  ⟨_, rfl⟩

theorem parseElementsWith_tasks (pv : List Char → Except JsError (JsVal × List Char))
    (hpv : ∀ (t : Task) (r : List Char), pv (stringifyTask t ++ r) = .ok (t.toJson, r))
    (ts : List Task) : ∀ (t : Task) (acc : List JsVal) (n : Nat) (rest : List Char),
    ts.length < n →
    parseElementsWith pv n (stringifyTask t ++ (stringifyTail ts ++ ']' :: rest)) acc =
      .ok (acc.reverse ++ (t :: ts).map Task.toJson, rest) := by
  induction ts with
  | nil =>
    intro t acc n rest hn
    obtain ⟨m, rfl⟩ : ∃ m, n = m + 1 := ⟨n - 1, by omega⟩
    rw [parseElementsWith, hpv]
    simp only [stringifyTail, List.nil_append]
    rw [skipWs_cons_of_not_ws _ _ (by decide)]
    simp
  | cons u ts ih =>
    intro t acc n rest hn
    obtain ⟨m, rfl⟩ : ∃ m, n = m + 1 := ⟨n - 1, by omega⟩
    rw [parseElementsWith, hpv]
    simp only [stringifyTail, List.cons_append, List.append_assoc]
    rw [skipWs_cons_of_not_ws _ _ (by decide)]
    simp only [if_true]
    rw [ih u (t.toJson :: acc) m rest (by simpa using hn)]
    simp

theorem stringifyTask_length (t : Task) : 8 ≤ (stringifyTask t).length := by
  simp [stringifyTask, stringifyMember, quoteJSONString]
  omega

theorem stringifyTail_length (ts : List Task) : ts.length ≤ (stringifyTail ts).length := by
  induction ts with
  | nil => simp [stringifyTail]
  | cons t ts ih => simp [stringifyTail]; omega

theorem JSON.parse_stringify (tasks : List Task) :
    JSON.parse (JSON.stringify tasks) = .ok (.arr (tasks.map Task.toJson)) := by
  cases tasks with
  | nil => rfl
  | cons t ts =>
    have h8 := stringifyTask_length t
    have hl := stringifyTail_length ts
    simp only [JSON.stringify, JSON.parse]
    generalize hL : ('[' :: (stringifyTask t ++ stringifyTail ts ++ [']'])).length = L
    have hL8 : (stringifyTask t).length + (stringifyTail ts).length + 2 = L := by
      rw [← hL]; simp only [List.length_cons, List.length_append, List.length_nil]
    obtain ⟨f, rfl⟩ : ∃ f, L = f + 8 := ⟨L - 8, by omega⟩
    rw [parseValue, skipWs_cons_of_not_ws _ _ (by decide)]
    obtain ⟨tl, htl⟩ := stringifyTask_head t (stringifyTail ts ++ [']'])
    have hsk : skipWs (stringifyTask t ++ stringifyTail ts ++ [']']) =
        stringifyTask t ++ stringifyTail ts ++ [']'] := by
      rw [List.append_assoc, htl]
      exact skipWs_cons_of_not_ws _ _ (by decide)
    simp only [show ¬ ('[' = '{') by decide, if_true, if_false, hsk]
    rw [List.append_assoc, htl]
    simp only [show ¬ ('{' = ']') by decide, if_false]
    rw [← htl, parseElementsWith_tasks _ (parseValue_task f) ts t [] (f + 8) [] (by omega)]
    simp [skipWs, mapVal]

theorem reviveTask_toJson (clock : Clock) (t : Task) :
    reviveTask clock t.toJson = .ok t.toLoaded := by
  simp [reviveTask, JsVal.getProp, lookupMember, Task.toJson, LoadedTask.new, Task.toLoaded,
    List.find?]

theorem reviveAll_toJson (clock : Nat → Clock) (ts : List Task) : ∀ i,
    reviveAll clock i (ts.map Task.toJson) = .ok (ts.map Task.toLoaded) := by
  induction ts with
  | nil => intro i; rfl
  | cons t ts ih =>
    intro i
    simp [reviveAll, reviveTask_toJson, ih]

theorem truthyStr_stringify (tasks : List Task) : truthyStr (JSON.stringify tasks) = true := by
  cases tasks <;> simp [JSON.stringify, truthyStr]

/-- Claim C2. `Storage.save(tasks)` followed by `Storage.get()` returns, whatever
the clock reads while the tasks are rebuilt, the list of the saved tasks in the
same order, each with the same id, title, description, date, time, completed
flag and createdAt (a `LoadedTask` determines all seven). -/
theorem Storage.get_save (tasks : List Task) (clock : Nat → Clock) (ls : LocalStorage) :
    Storage.get clock (Storage.save tasks ls) = .ok (tasks.map Task.toLoaded)
    ∧ (∀ t u : Task, t.toLoaded = u.toLoaded →
        t.id = u.id ∧ t.title = u.title ∧ t.description = u.description ∧ t.date = u.date ∧
          t.time = u.time ∧ t.completed = u.completed ∧ t.createdAt = u.createdAt) := by
  constructor
  · simp [Storage.get, Storage.save_key, truthyStr_stringify, JSON.parse_stringify,
      reviveAll_toJson]
  · intro t u h
    simp only [Task.toLoaded, LoadedTask.mk.injEq, JsVal.num.injEq, JsVal.str.injEq,
      JsVal.bool.injEq, Int.cast_inj] at h
    exact h

/-- The theorem `Storage.get_save` applied to a list holding the 'Buy milk' task. -/
theorem Storage.get_save_witness :
    Storage.get fixedClock
        (Storage.save [Task.new 0 ⟨1717228800000, "2024-06-01T08:00:00.000Z"⟩ "Buy milk" "2%"
          "2024-06-01" "08:00"] (fun _ => none)) =
      .ok ([Task.new 0 ⟨1717228800000, "2024-06-01T08:00:00.000Z"⟩ "Buy milk" "2%"
          "2024-06-01" "08:00"].map Task.toLoaded)
    ∧ (Task.new 0 ⟨5, "c"⟩ "A" "a" "2024-06-01" "08:00").toLoaded =
        (Task.new 1 ⟨5, "c"⟩ "A" "a" "2024-06-01" "08:00").toLoaded
    ∧ (Task.new 0 ⟨5, "c"⟩ "A" "a" "2024-06-01" "08:00").id =
        (Task.new 1 ⟨5, "c"⟩ "A" "a" "2024-06-01" "08:00").id :=
  ⟨(Storage.get_save _ fixedClock (fun _ => none)).1, rfl,
    ((Storage.get_save [] fixedClock (fun _ => none)).2 _ _ rfl).1⟩

/-! ### `JSON.parse` never runs out of fuel -/

theorem shrinks_mono {α : Type} {k : Nat} (cs1 cs : List Char)
    {res : Except JsError (α × List Char)}
    (hle : cs1.length ≤ cs.length) (h : Shrinks k cs1 res) : Shrinks k cs res := by
  cases res with
  | error e => exact h
  | ok p =>
    obtain ⟨v, rest⟩ := p
    simp only [Shrinks] at h ⊢
    omega

theorem skipWs_length (cs : List Char) : (skipWs cs).length ≤ cs.length :=
  (List.dropWhile_sublist _).length_le

theorem parseStringBody_consumed : ∀ (n : Nat) (cs : List Char) (acc : List Nat),
    cs.length ≤ n → Shrinks 1 cs (parseStringBody cs acc) := by
  intro n
  induction n with
  | zero =>
    intro cs acc h
    cases cs with
    | nil => simp [parseStringBody, Shrinks]
    | cons c cs => simp at h
  | succ n ih =>
    intro cs acc h
    cases cs with
    | nil => simp [parseStringBody, Shrinks]
    | cons c rest =>
      have hrest : rest.length ≤ n := by simpa using h
      rw [parseStringBody.eq_def]
      simp only
      by_cases h1 : c = '"'
      · rw [if_pos h1]; simp [Shrinks]
      rw [if_neg h1]
      by_cases h2 : c = '\\'
      · rw [if_pos h2]
        cases rest with
        | nil => simp [Shrinks]
        | cons e r =>
          have hr : r.length ≤ n := by simp only [List.length_cons] at hrest; omega
          have hmono : ∀ acc', Shrinks 1 (c :: e :: r) (parseStringBody r acc') :=
            fun acc' => shrinks_mono r _ (by simp only [List.length_cons]; omega) (ih r acc' hr)
          simp only
          split_ifs
          any_goals exact hmono _
          · match r, hr with
            | [], _ => simp [Shrinks]
            | [_], _ => simp [Shrinks]
            | [_, _], _ => simp [Shrinks]
            | [_, _, _], _ => simp [Shrinks]
            | a :: b :: c1 :: d :: r1, hr =>
              simp only
              cases hex4 a b c1 d with
              | none => simp [Shrinks]
              | some u =>
                simp only
                exact shrinks_mono r1 _ (by simp only [List.length_cons]; omega)
                  (ih r1 _ (by simp only [List.length_cons] at hr; omega))
          · simp [Shrinks]
      rw [if_neg h2]
      by_cases h3 : c.toNat < 0x20
      · rw [if_pos h3]; simp [Shrinks]
      rw [if_neg h3]
      exact shrinks_mono rest _ (by simp only [List.length_cons]; omega) (ih rest _ hrest)

theorem dropWhile_length_le (p : Char → Bool) (cs : List Char) :
    (cs.dropWhile p).length ≤ cs.length :=
  (List.dropWhile_sublist _).length_le

theorem exponentSign_length (r : List Char) : (exponentSign r).2.length ≤ r.length := by
  unfold exponentSign
  cases r with
  | nil => simp
  | cons s r0 =>
    simp only
    split_ifs <;> simp

theorem parseExponent_shrinks (cs : List Char) : Shrinks 0 cs (parseExponent cs) := by
  unfold parseExponent
  cases cs with
  | nil => simp [Shrinks]
  | cons e r =>
    have h0 := dropWhile_length_le Char.isDigit (exponentSign r).2
    have h3 := exponentSign_length r
    simp only
    split_ifs <;> simp only [Shrinks, List.length_cons, Nat.add_zero] <;> omega

theorem parseFraction_shrinks (cs : List Char) : Shrinks 0 cs (parseFraction cs) := by
  unfold parseFraction
  cases cs with
  | nil => simp [Shrinks]
  | cons d r =>
    have h0 := dropWhile_length_le Char.isDigit r
    simp only
    split_ifs <;> simp only [Shrinks, List.length_cons, Nat.add_zero] <;> omega

theorem parseUnsigned_tail_shrinks (ds : List Char) (c : Char) (r r1 : List Char)
    (hp : r1.length ≤ r.length) :
    Shrinks 1 (c :: r)
      (match parseFraction r1 with
      | .error e => .error e
      | .ok (f, r2) =>
        match parseExponent r2 with
        | .error e => .error e
        | .ok (x, r3) => .ok (((digitsVal ds : ℚ) + f) * (10 : ℚ) ^ x, r3)) := by
  have hf := parseFraction_shrinks r1
  cases hfr : parseFraction r1 with
  | error e => rw [hfr] at hf; exact hf
  | ok q =>
    obtain ⟨f, r2⟩ := q
    rw [hfr] at hf
    simp only [Shrinks, Nat.add_zero] at hf
    simp only
    have he := parseExponent_shrinks r2
    cases her : parseExponent r2 with
    | error e => rw [her] at he; exact he
    | ok q2 =>
      obtain ⟨x, r3⟩ := q2
      rw [her] at he
      simp only [Shrinks, Nat.add_zero, List.length_cons] at he ⊢
      omega

theorem parseUnsigned_shrinks (cs : List Char) : Shrinks 1 cs (parseUnsigned cs) := by
  unfold parseUnsigned
  cases cs with
  | nil => simp [Shrinks]
  | cons c r =>
    simp only
    by_cases h1 : c.isDigit = true
    · rw [if_pos h1]
      by_cases hz : c = '0'
      · simp only [hz, if_true]
        exact parseUnsigned_tail_shrinks _ _ _ _ (Nat.le_refl _)
      · simp only [hz, if_false]
        exact parseUnsigned_tail_shrinks _ _ _ _ (dropWhile_length_le _ _)
    · rw [if_neg h1]
      rfl

theorem parseNumber_shrinks (cs : List Char) : Shrinks 1 cs (parseNumber cs) := by
  unfold parseNumber
  cases cs with
  | nil => simp [Shrinks]
  | cons c r =>
    simp only
    split_ifs with h1
    · have hu := parseUnsigned_shrinks r
      cases hur : parseUnsigned r with
      | error e => rw [hur] at hu; exact hu
      | ok q =>
        obtain ⟨x, r1⟩ := q
        rw [hur] at hu
        simp only [Shrinks, List.length_cons] at hu ⊢
        omega
    · exact parseUnsigned_shrinks _

theorem shrinks_mapVal {α : Type} {k : Nat} {cs : List Char} (f : α → JsVal)
    {res : Except JsError (α × List Char)} (h : Shrinks k cs res) :
    Shrinks k cs (mapVal f res) := by
  cases res with
  | error e => exact h
  | ok p => exact h

theorem parseElementsWith_shrinks (pv : List Char → Except JsError (JsVal × List Char)) :
    ∀ (n : Nat) (cs : List Char) (acc : List JsVal),
    (∀ cs1 : List Char, cs1.length ≤ cs.length → Shrinks 1 cs1 (pv cs1)) → cs.length < n →
    Shrinks 1 cs (parseElementsWith pv n cs acc) := by
  intro n
  induction n with
  | zero => intro cs acc _ h; omega
  | succ n ih =>
    intro cs acc hpv hn
    rw [parseElementsWith]
    have h1 := hpv cs (Nat.le_refl _)
    cases hres : pv cs with
    | error e => rw [hres] at h1; exact h1
    | ok p =>
      obtain ⟨v, rest⟩ := p
      rw [hres] at h1
      simp only [Shrinks] at h1
      simp only
      have hsk := skipWs_length rest
      cases hs : skipWs rest with
      | nil => rfl
      | cons c rest1 =>
        rw [hs] at hsk
        simp only [List.length_cons] at hsk
        simp only
        split_ifs
        · exact shrinks_mono rest1 _ (by omega)
            (ih rest1 (v :: acc) (fun cs1 h => hpv cs1 (by omega)) (by omega))
        · simp only [Shrinks]; omega
        · rfl

theorem parseMembersWith_shrinks (pv : List Char → Except JsError (JsVal × List Char)) :
    ∀ (n : Nat) (cs : List Char) (acc : List (String × JsVal)),
    (∀ cs1 : List Char, cs1.length ≤ cs.length → Shrinks 1 cs1 (pv cs1)) → cs.length < n →
    Shrinks 1 cs (parseMembersWith pv n cs acc) := by
  intro n
  induction n with
  | zero => intro cs acc _ h; omega
  | succ n ih =>
    intro cs acc hpv hn
    rw [parseMembersWith]
    have hsk := skipWs_length cs
    cases hs : skipWs cs with
    | nil => rfl
    | cons q r =>
      rw [hs] at hsk
      simp only [List.length_cons] at hsk
      simp only
      by_cases hq : q = '"'
      swap
      · rw [if_neg hq]; rfl
      rw [if_pos hq]
      have hstr := parseStringBody_consumed r.length r [] (Nat.le_refl _)
      cases hres : parseStringBody r [] with
      | error e => rw [hres] at hstr; exact hstr
      | ok p =>
        obtain ⟨k, r1⟩ := p
        rw [hres] at hstr
        simp only [Shrinks] at hstr
        simp only
        have hsk1 := skipWs_length r1
        cases hs1 : skipWs r1 with
        | nil => rfl
        | cons c r2 =>
          rw [hs1] at hsk1
          simp only [List.length_cons] at hsk1
          simp only
          by_cases hc : c = ':'
          swap
          · rw [if_neg hc]; rfl
          rw [if_pos hc]
          have h1 := hpv r2 (by omega)
          cases hres2 : pv r2 with
          | error e => rw [hres2] at h1; exact h1
          | ok p2 =>
            obtain ⟨v, r3⟩ := p2
            rw [hres2] at h1
            simp only [Shrinks] at h1
            simp only
            have hsk3 := skipWs_length r3
            cases hs3 : skipWs r3 with
            | nil => rfl
            | cons d r4 =>
              rw [hs3] at hsk3
              simp only [List.length_cons] at hsk3
              simp only
              split_ifs
              · exact shrinks_mono r4 _ (by omega)
                  (ih r4 ((k, v) :: acc) (fun cs1 h => hpv cs1 (by omega)) (by omega))
              · simp only [Shrinks]; omega
              · rfl

theorem parseValue_shrinks : ∀ (fuel : Nat) (cs : List Char), cs.length < fuel →
    Shrinks 1 cs (parseValue fuel cs) := by
  intro fuel
  induction fuel with
  | zero => intro cs h; omega
  | succ fuel ih =>
    intro cs hn
    rw [parseValue]
    have hsk := skipWs_length cs
    cases hs : skipWs cs with
    | nil => rfl
    | cons c r =>
      rw [hs] at hsk
      simp only [List.length_cons] at hsk
      simp only
      have hskr := skipWs_length r
      split_ifs with h1 h2 h3 h4 h5 h6
      · cases hsr : skipWs r with
        | nil => rfl
        | cons c1 r1 =>
          rw [hsr] at hskr
          simp only [List.length_cons] at hskr
          simp only
          split_ifs
          · simp only [Shrinks]; omega
          · exact shrinks_mono r _ (by omega) (shrinks_mapVal JsVal.obj
              (parseMembersWith_shrinks (parseValue fuel) fuel r []
                (fun cs1 h => ih cs1 (by omega)) (by omega)))
      · cases hsr : skipWs r with
        | nil => rfl
        | cons c1 r1 =>
          rw [hsr] at hskr
          simp only [List.length_cons] at hskr
          simp only
          split_ifs
          · simp only [Shrinks]; omega
          · exact shrinks_mono r _ (by omega) (shrinks_mapVal JsVal.arr
              (parseElementsWith_shrinks (parseValue fuel) fuel r []
                (fun cs1 h => ih cs1 (by omega)) (by omega)))
      · exact shrinks_mono r _ (by omega)
          (shrinks_mapVal JsVal.str (parseStringBody_consumed r.length r [] (Nat.le_refl _)))
      · split
        · simp only [Shrinks, List.length_cons] at *; omega
        · rfl
      · split
        · simp only [Shrinks, List.length_cons] at *; omega
        · rfl
      · split
        · simp only [Shrinks, List.length_cons] at *; omega
        · rfl
      · exact shrinks_mono (c :: r) _ (by simp only [List.length_cons]; omega)
          (shrinks_mapVal JsVal.num (parseNumber_shrinks (c :: r)))

theorem JSON.parse_error (text : String) (e : JsError) (h : JSON.parse text = .error e) :
    e = .syntaxError := by
  unfold JSON.parse at h
  have hs := parseValue_shrinks (text.data.length + 1) text.data (Nat.lt_succ_self _)
  cases hres : parseValue (text.data.length + 1) text.data with
  | error e1 =>
    rw [hres] at hs h
    simp only [Except.error.injEq] at h
    rw [← h]
    exact hs
  | ok p =>
    obtain ⟨v, rest⟩ := p
    rw [hres] at h
    simp only at h
    cases hsk : skipWs rest with
    | nil => rw [hsk] at h; simp at h
    | cons c r =>
      rw [hsk] at h
      simp only [Except.error.injEq] at h
      exact h.symm


/-! ### Loading from an absent or unparsable store -/

/-- Claim C3 as stated fails: on a store whose task list is a truncated JSON text,
`Storage.get` raises the SyntaxError of `JSON.parse` instead of returning the
empty list. -/
theorem Storage.get_truncated_raises :
    Storage.get fixedClock truncatedStore = .error .syntaxError := by
  rfl

/-- Claim C3, amended. `Storage.get` returns the empty list when the key is absent
and when it holds the empty string; when the stored string is not empty and is
not parsable as JSON, it raises the SyntaxError of `JSON.parse`. -/
theorem Storage.get_absent_or_unparsable (clock : Nat → Clock) (ls : LocalStorage) :
    (ls.getItem Storage.KEY = none → Storage.get clock ls = .ok [])
    ∧ (ls.getItem Storage.KEY = some "" → Storage.get clock ls = .ok [])
    ∧ (∀ text : String, ls.getItem Storage.KEY = some text → text ≠ "" →
        (∀ v, JSON.parse text ≠ .ok v) → Storage.get clock ls = .error .syntaxError) := by
  refine ⟨?_, ?_, ?_⟩
  · intro h
    simp [Storage.get, h, reviveAll]
  · intro h
    simp [Storage.get, h, truthyStr, reviveAll]
  · intro text h hne hparse
    have ht : truthyStr text = true := by
      have := (truthyStr_eq_false_iff text).not.mpr hne
      simpa using this
    cases hres : JSON.parse text with
    | ok v => exact absurd hres (hparse v)
    | error e =>
      have he := JSON.parse_error text e hres
      subst he
      simp [Storage.get, h, ht, hres]

/-- The theorem `Storage.get_absent_or_unparsable` applied to an empty store, to a
store holding the empty string and to a store holding a truncated JSON text. -/
theorem Storage.get_absent_or_unparsable_witness :
    (LocalStorage.getItem (fun _ => none) Storage.KEY = none ∧
      Storage.get fixedClock (fun _ => none) = .ok [])
    ∧ (LocalStorage.getItem (LocalStorage.setItem (fun _ => none) Storage.KEY "") Storage.KEY
          = some "" ∧
      Storage.get fixedClock (LocalStorage.setItem (fun _ => none) Storage.KEY "") = .ok [])
    ∧ (truncatedStore.getItem Storage.KEY = some "[\x7b\"id\":1,\"title\":\"Buy mi" ∧
      "[\x7b\"id\":1,\"title\":\"Buy mi" ≠ "" ∧
      (∀ v, JSON.parse "[\x7b\"id\":1,\"title\":\"Buy mi" ≠ .ok v) ∧
      Storage.get fixedClock truncatedStore = .error .syntaxError) :=
  have hp : ∀ v, JSON.parse "[\x7b\"id\":1,\"title\":\"Buy mi" ≠ .ok v := by
    intro v h
    have h2 : JSON.parse "[\x7b\"id\":1,\"title\":\"Buy mi" = .error .syntaxError := rfl
    rw [h2] at h
    cases h
  ⟨⟨rfl, (Storage.get_absent_or_unparsable fixedClock (fun _ => none)).1 rfl⟩,
   ⟨rfl, (Storage.get_absent_or_unparsable fixedClock
      (LocalStorage.setItem (fun _ => none) Storage.KEY "")).2.1 rfl⟩,
   ⟨rfl, by decide, hp,
    (Storage.get_absent_or_unparsable fixedClock truncatedStore).2.2 _ rfl (by decide) hp⟩⟩

end TaskManager
